import Mathlib

/-!
Shallow embedding of the `monkey-rs` parser (`src/parser.rs`) together with
the token and AST data model it consumes.  The parser functions are translated
directly from the Rust source; the token set, the AST node constructors and the
canonical rendering are modelled from the specification, since `token.rs`,
`lexer.rs` and `ast.rs` are not part of the provided sources (the parser source
pins down the constructors and field order it uses).

Every parsing function takes a fuel argument; `none` means the fuel ran out.
This makes the embedding total while keeping the (possibly non-terminating)
loops of the source faithfully representable.
-/

namespace MonkeyRs

/-- Modelled from the spec: the closed set of lexical tokens consumed by the
parser.  Identifier and integer-literal tokens carry payload text; all other
tags are payload-free.  Only the tags actually mentioned by `parser.rs` plus
the end-of-input marker are needed. -/
inductive Token : Type
  | Illegal
  | EOF
  | Ident (name : String)
  | Int (value : String)
  | Assign
  | Plus
  | Minus
  | Bang
  | Asterisk
  | Slash
  | Lt
  | Gt
  | Eq
  | NotEq
  | Comma
  | Semicolon
  | LParen
  | RParen
  | LBrace
  | RBrace
  | Function
  | Let
  | True
  | False
  | If
  | Else
  | Return
deriving DecidableEq, Repr

/-- Embeds `Precedence` (src/parser.rs, lines 7-16).  The Rust `Prefix`
variant is called `PrefixOp` here. -/
inductive Precedence : Type
  | Lowest
  | Equals
  | LessGreater
  | Sum
  | Product
  | PrefixOp
  | Call
deriving DecidableEq, Repr

/-- Discriminant of a `Precedence` level; the derived Rust `PartialOrd`
compares discriminants. -/
def Precedence.toNat : Precedence → Nat
  | .Lowest => 0
  | .Equals => 1
  | .LessGreater => 2
  | .Sum => 3
  | .Product => 4
  | .PrefixOp => 5
  | .Call => 6

/-- Embeds the derived `PartialOrd` comparison `a < b` on `Precedence`. -/
def Precedence.lt (a b : Precedence) : Bool :=
  a.toNat < b.toNat

/-- Embeds `Precedence::for_token` (src/parser.rs, lines 19-27). -/
def Precedence.forToken : Token → Precedence
  | Token.Eq => .Equals
  | Token.NotEq => .Equals
  | Token.Gt => .LessGreater
  | Token.Lt => .LessGreater
  | Token.Plus => .Sum
  | Token.Minus => .Sum
  | Token.Slash => .Product
  | Token.Asterisk => .Product
  | _ => .Lowest

/-- Embeds `ParserError` (src/parser.rs, lines 30-37).  The Rust variant
`UnhandledPrefix` is called `UnhandledPrefixTok` here. -/
inductive ParserError : Type
  | ExpectedToken (expected : Token) (saw : Token)
  | ExpectedIdent (saw : Token)
  | IntegerParseFailure (text : String)
  | UnhandledPrefixTok (tok : Token)
  | UnhandledExpression (tok : Token)
deriving DecidableEq, Repr

/-- True exactly on the `UnhandledExpression` variant of `ParserError`. -/
def ParserError.isUE : ParserError → Bool
  | .UnhandledExpression _ => true
  | _ => false

/-- Modelled from the spec: an `Identifier` AST node is a single owned name
string, value-comparable (`Identifier::new` clones the name). -/
structure Identifier : Type where
  name : String
deriving DecidableEq, Repr

mutual
/-- Modelled from the spec: the `Expression` AST node variants, with the
constructors and field order used by `parser.rs`.  The Rust variants
`Prefix` and `Infix` are called `PrefixExpr` and `InfixExpr` here. -/
inductive Expression : Type
  | Identifier (id : Identifier)
  | IntegerLiteral (value : Int)
  | Boolean (b : Bool)
  | PrefixExpr (operator : Token) (right : Expression)
  | InfixExpr (operator : Token) (left : Expression) (right : Expression)
  | If (condition : Expression) (consequence : BlockStatement)
      (alternative : Option BlockStatement)
  | Nothing

/-- Modelled from the spec: a block statement carries its introducing token
and an ordered sequence of statements. -/
inductive BlockStatement : Type
  | mk (token : Token) (statements : List Statement)

/-- Modelled from the spec: the `Statement` AST node variants, with the
constructors and field order used by `parser.rs`. -/
inductive Statement : Type
  | Let (token : Token) (name : Identifier) (value : Expression)
  | Return (token : Token) (expr : Expression)
  | Expression (token : Token) (expr : Expression)
end

/-- Modelled from the spec: a `Program` is an ordered sequence of statements;
`Program::default()` is the empty program. -/
structure Program : Type where
  statements : List Statement

/-- Parser state: the two-token lookahead window (`cur_token`, `peek_token`)
plus the tokens the lexer has not yet produced.  The lexer contract is that a
drained stream yields `EOF` forever, which `pull` realises on the empty list.
The diagnostics list is threaded separately, in `programLoop` below, because
`parse_program` is the only function of the source that touches it. -/
structure PState : Type where
  cur : Token
  peek : Token
  rest : List Token
deriving DecidableEq, Repr

/-- Pull one token from the stream; a drained stream yields `EOF` forever
(the lexer contract from the spec). -/
def pull : List Token → Token × List Token
  | [] => (Token.EOF, [])
  | t :: ts => (t, ts)

/-- Embeds `Parser::new` (src/parser.rs, lines 75-84): prime the two-token
window by pulling twice. -/
def mkParser (tokens : List Token) : PState :=
  let (c, r1) := pull tokens
  let (p, r2) := pull r1
  { cur := c, peek := p, rest := r2 }

/-- Embeds `Parser::next_token` (src/parser.rs, lines 101-104). -/
def nextToken (st : PState) : PState :=
  let (t, r) := pull st.rest
  { cur := st.peek, peek := t, rest := r }

/-- The shape comparison shared by `current_token_is` and `peek_token_is`
(src/parser.rs, lines 106-120): identifier matches any identifier and integer
matches any integer, payload ignored; every other tag uses full equality. -/
def tokenShapeEq (tok other : Token) : Bool :=
  match tok, other with
  | Token.Ident _, Token.Ident _ => true
  | Token.Int _, Token.Int _ => true
  | _, _ => tok == other

/-- Embeds `Parser::current_token_is` (src/parser.rs, lines 106-112). -/
def curTokenIs (st : PState) (tok : Token) : Bool :=
  tokenShapeEq tok st.cur

/-- Embeds `Parser::peek_token_is` (src/parser.rs, lines 114-120). -/
def peekTokenIs (st : PState) (tok : Token) : Bool :=
  tokenShapeEq tok st.peek

/-- Embeds `Parser::expect_peek` (src/parser.rs, lines 122-131): on a shape
match advance and succeed, otherwise fail with `ExpectedToken` and leave the
state unchanged. -/
def expectPeek (st : PState) (expected : Token) : Except ParserError Unit × PState :=
  if peekTokenIs st expected then
    (Except.ok (), nextToken st)
  else
    (Except.error (ParserError.ExpectedToken expected st.peek), st)

/-- Embeds `Parser::expect_ident` (src/parser.rs, lines 133-142). -/
def expectIdent (st : PState) : Except ParserError Identifier × PState :=
  match st.peek with
  | Token.Ident name => (Except.ok ⟨name⟩, nextToken st)
  | _ => (Except.error (ParserError.ExpectedIdent st.peek), st)

/-- Embeds Rust `str::parse::<i64>` as used by `parse_int_expression`:
an optional sign followed by at least one digit, rejected on overflow of the
signed 64-bit range. -/
def parseI64 (s : String) : Option Int :=
  let cs :=
    match s.data with
    | '+' :: rest => (1, rest)
    | '-' :: rest => (-1, rest)
    | other => ((1 : Int), other)
  match cs with
  | (sign, ds) =>
    if ds.isEmpty then none
    else if ds.all Char.isDigit then
      let n : Nat := ds.foldl (fun acc c => acc * 10 + (c.toNat - '0'.toNat)) 0
      let v : Int := sign * n
      if -(2 ^ 63) ≤ v ∧ v < 2 ^ 63 then some v else none
    else none

/-- Embeds `Parser::parse_int_expression` (src/parser.rs, lines 211-216). -/
def parseIntExpression (s : String) : Except ParserError Expression :=
  match parseI64 s with
  | some v => Except.ok (Expression.IntegerLiteral v)
  | none => Except.error (ParserError.IntegerParseFailure s)

/-- The Rust `?` operator on a fueled parse result: fuel exhaustion and
errors propagate unchanged, a success feeds the continuation. -/
def pbind {α β : Type} (r : Option (Except ParserError α × PState))
    (k : α → PState → Option (Except ParserError β × PState)) :
    Option (Except ParserError β × PState) :=
  match r with
  | none => none
  | some (Except.error e, st) => some (Except.error e, st)
  | some (Except.ok a, st) => k a st

/-- The Rust `?` operator on an unfueled parse result (`expect_peek`,
`expect_ident`): errors propagate, a success feeds the continuation. -/
def epbind {α β : Type} (r : Except ParserError α × PState)
    (k : α → PState → Option (Except ParserError β × PState)) :
    Option (Except ParserError β × PState) :=
  match r with
  | (Except.error e, st) => some (Except.error e, st)
  | (Except.ok a, st) => k a st

mutual
/-- Embeds `Parser::parse_statement` (src/parser.rs, lines 157-163). -/
def parseStatement (fuel : Nat) (st : PState) :
    Option (Except ParserError Statement × PState) :=
  match fuel with
  | 0 => none
  | f + 1 =>
    match st.cur with
    | Token.Let => parseLetStatement f st
    | Token.Return => parseReturnStatement f st
    | _ => parseExpressionStatement f st

/-- Embeds `Parser::parse_let_statement` (src/parser.rs, lines 165-175).
Each Rust `?` propagation is an `epbind`/`pbind`. -/
def parseLetStatement (fuel : Nat) (st : PState) :
    Option (Except ParserError Statement × PState) :=
  match fuel with
  | 0 => none
  | f + 1 =>
    let token := st.cur
    epbind (expectIdent st) fun name st1 =>
    epbind (expectPeek st1 Token.Assign) fun _ st2 =>
    pbind (parseExpression f Precedence.Lowest (nextToken st2)) fun value st4 =>
      let st5 := if peekTokenIs st4 Token.Semicolon then nextToken st4 else st4
      some (Except.ok (Statement.Let token name value), st5)

/-- Embeds the skip loop of `Parser::parse_return_statement`
(src/parser.rs, lines 192-194): advance while the current token is not a
semicolon.  The loop has no end-of-input guard in the source. -/
def skipToSemicolon (fuel : Nat) (st : PState) : Option PState :=
  match fuel with
  | 0 => none
  | f + 1 =>
    if curTokenIs st Token.Semicolon then some st
    else skipToSemicolon f (nextToken st)

/-- Embeds `Parser::parse_return_statement` (src/parser.rs, lines 185-196):
capture the token, build the statement with the `Nothing` sentinel, advance
once, then skip to the next semicolon. -/
def parseReturnStatement (fuel : Nat) (st : PState) :
    Option (Except ParserError Statement × PState) :=
  match fuel with
  | 0 => none
  | f + 1 =>
    let stmt := Statement.Return st.cur Expression.Nothing
    match skipToSemicolon f (nextToken st) with
    | none => none
    | some st1 => some (Except.ok stmt, st1)

/-- Embeds `Parser::parse_expression_statement` (src/parser.rs, lines
198-209).  Note the statement token is `cur_token` cloned *after* the
expression parse. -/
def parseExpressionStatement (fuel : Nat) (st : PState) :
    Option (Except ParserError Statement × PState) :=
  match fuel with
  | 0 => none
  | f + 1 =>
    pbind (parseExpression f Precedence.Lowest st) fun expr st1 =>
      let stmt := Statement.Expression st1.cur expr
      let st2 := if peekTokenIs st1 Token.Semicolon then nextToken st1 else st1
      some (Except.ok stmt, st2)

/-- Embeds `Parser::parse_prefix_expression` (src/parser.rs, lines 218-226). -/
def parsePrefixExpression (fuel : Nat) (st : PState) :
    Option (Except ParserError Expression × PState) :=
  match fuel with
  | 0 => none
  | f + 1 =>
    let operator := st.cur
    pbind (parseExpression f Precedence.PrefixOp (nextToken st)) fun right st2 =>
      some (Except.ok (Expression.PrefixExpr operator right), st2)

/-- Embeds `Parser::parse_infix_expression` (src/parser.rs, lines 228-238):
the right operand is parsed at the operator's own precedence level. -/
def parseInfixExpression (fuel : Nat) (left : Expression) (st : PState) :
    Option (Except ParserError Expression × PState) :=
  match fuel with
  | 0 => none
  | f + 1 =>
    let operator := st.cur
    pbind (parseExpression f (Precedence.forToken st.cur) (nextToken st)) fun right st2 =>
      some (Except.ok (Expression.InfixExpr operator left right), st2)

/-- Embeds `Parser::parse_grouped_expression` (src/parser.rs, lines 244-248):
the inner result is computed first; `expect_peek(RParen).and(expr)` yields the
`RParen` error when the closing check fails, and the inner result otherwise. -/
def parseGroupedExpression (fuel : Nat) (st : PState) :
    Option (Except ParserError Expression × PState) :=
  match fuel with
  | 0 => none
  | f + 1 =>
    let st1 := nextToken st
    match parseExpression f Precedence.Lowest st1 with
    | none => none
    | some (expr, st2) =>
      match expectPeek st2 Token.RParen with
      | (Except.error e, st3) => some (Except.error e, st3)
      | (Except.ok _, st3) => some (expr, st3)

/-- Embeds the statement loop of `Parser::parse_block_statement`
(src/parser.rs, lines 253-257): parse statements until `}` or `EOF`,
propagating the first failure. -/
def blockLoop (fuel : Nat) (tok : Token) (acc : List Statement) (st : PState) :
    Option (Except ParserError BlockStatement × PState) :=
  match fuel with
  | 0 => none
  | f + 1 =>
    if !curTokenIs st Token.RBrace && !curTokenIs st Token.EOF then
      pbind (parseStatement f st) fun stmt st1 =>
        blockLoop f tok (acc ++ [stmt]) (nextToken st1)
    else
      some (Except.ok (BlockStatement.mk tok acc), st)

/-- Embeds `Parser::parse_block_statement` (src/parser.rs, lines 250-259):
capture the opening token, advance, then run the statement loop. -/
def parseBlockStatement (fuel : Nat) (st : PState) :
    Option (Except ParserError BlockStatement × PState) :=
  match fuel with
  | 0 => none
  | f + 1 => blockLoop f st.cur [] (nextToken st)

/-- Embeds `Parser::parse_if_expression` (src/parser.rs, lines 261-280). -/
def parseIfExpression (fuel : Nat) (st : PState) :
    Option (Except ParserError Expression × PState) :=
  match fuel with
  | 0 => none
  | f + 1 =>
    epbind (expectPeek st Token.LParen) fun _ st1 =>
    pbind (parseExpression f Precedence.Lowest st1) fun condition st2 =>
    epbind (expectPeek st2 Token.LBrace) fun _ st3 =>
    pbind (parseBlockStatement f st3) fun consequence st4 =>
      match st4.peek with
      | Token.Else =>
        epbind (expectPeek (nextToken st4) Token.LBrace) fun _ st6 =>
        pbind (parseBlockStatement f st6) fun alt st7 =>
          some (Except.ok (Expression.If condition consequence (some alt)), st7)
      | _ => some (Except.ok (Expression.If condition consequence none), st4)

/-- Embeds the infix-extension loop of `Parser::parse_expression`
(src/parser.rs, lines 296-311): while the next token is not a semicolon and
its level is strictly greater than `prec`, absorb a recognized binary
operator; a non-operator lookahead returns the accumulated expression. -/
def infixLoop (fuel : Nat) (prec : Precedence) (left : Expression) (st : PState) :
    Option (Except ParserError Expression × PState) :=
  match fuel with
  | 0 => none
  | f + 1 =>
    if !peekTokenIs st Token.Semicolon && Precedence.lt prec (Precedence.forToken st.peek) then
      match st.peek with
      | Token.Plus | Token.Minus | Token.Asterisk | Token.Slash
      | Token.Gt | Token.Lt | Token.Eq | Token.NotEq =>
        pbind (parseInfixExpression f left (nextToken st)) fun left2 st1 =>
          infixLoop f prec left2 st1
      | _ => some (Except.ok left, st)
    else
      some (Except.ok left, st)

/-- Embeds `Parser::parse_expression` (src/parser.rs, lines 282-313):
prefix dispatch on the current token, then the infix-extension loop. -/
def parseExpression (fuel : Nat) (prec : Precedence) (st : PState) :
    Option (Except ParserError Expression × PState) :=
  match fuel with
  | 0 => none
  | f + 1 =>
    let prefixResult : Option (Except ParserError Expression × PState) :=
      match st.cur with
      | Token.Ident name => some (Except.ok (Expression.Identifier ⟨name⟩), st)
      | Token.Int s => some (parseIntExpression s, st)
      | Token.Bang => parsePrefixExpression f st
      | Token.Minus => parsePrefixExpression f st
      | Token.Plus => parsePrefixExpression f st
      | Token.True => some (Except.ok (Expression.Boolean true), st)
      | Token.False => some (Except.ok (Expression.Boolean false), st)
      | Token.LParen => parseGroupedExpression f st
      | Token.If => parseIfExpression f st
      | t => some (Except.error (ParserError.UnhandledPrefixTok t), st)
    pbind prefixResult fun left st1 => infixLoop f prec left st1
end

/-- Embeds the statement loop of `Parser::parse_program` (src/parser.rs,
lines 147-153): until the current token is `EOF`, attempt one statement;
append it to the program on success, append the error to the diagnostics on
failure, and unconditionally advance once per iteration. -/
def programLoop (fuel : Nat) (acc : List Statement) (errs : List ParserError)
    (st : PState) : Option (Option Program × List ParserError × PState) :=
  match fuel with
  | 0 => none
  | f + 1 =>
    if st.cur = Token.EOF then
      some (some ⟨acc⟩, errs, st)
    else
      match parseStatement f st with
      | none => none
      | some (Except.ok stmt, st1) => programLoop f (acc ++ [stmt]) errs (nextToken st1)
      | some (Except.error e, st1) => programLoop f acc (errs ++ [e]) (nextToken st1)

/-- Embeds `Parser::parse_program` (src/parser.rs, lines 144-155); `errs` is
the parser's diagnostics list at entry (empty on a fresh parser).  The inner
`Option Program` is the Rust return type; the source only ever returns
`Some(program)`. -/
def parseProgram (fuel : Nat) (st : PState) (errs : List ParserError) :
    Option (Option Program × List ParserError × PState) :=
  match fuel with
  | 0 => none
  | f + 1 => programLoop f [] errs st

/-- Modelled from the spec: the token's source text, needed by the canonical
rendering (`Display` for tokens lives outside the provided sources). -/
def Token.text : Token → String
  | Token.Illegal => "ILLEGAL"
  | Token.EOF => ""
  | Token.Ident name => name
  | Token.Int value => value
  | Token.Assign => "="
  | Token.Plus => "+"
  | Token.Minus => "-"
  | Token.Bang => "!"
  | Token.Asterisk => "*"
  | Token.Slash => "/"
  | Token.Lt => "<"
  | Token.Gt => ">"
  | Token.Eq => "=="
  | Token.NotEq => "!="
  | Token.Comma => ","
  | Token.Semicolon => ";"
  | Token.LParen => "("
  | Token.RParen => ")"
  | Token.LBrace => "\x7b"
  | Token.RBrace => "\x7d"
  | Token.Function => "fn"
  | Token.Let => "let"
  | Token.True => "true"
  | Token.False => "false"
  | Token.If => "if"
  | Token.Else => "else"
  | Token.Return => "return"

mutual
/-- Modelled from the spec: the canonical fully parenthesized rendering of an
expression — every binary operator renders as `(left op right)` and every
unary operator as `(op right)`. -/
def renderExpr : Expression → String
  | Expression.Identifier id => id.name
  | Expression.IntegerLiteral v => toString v
  | Expression.Boolean b => if b then "true" else "false"
  | Expression.PrefixExpr op right => "(" ++ op.text ++ renderExpr right ++ ")"
  | Expression.InfixExpr op left right =>
    "(" ++ renderExpr left ++ " " ++ op.text ++ " " ++ renderExpr right ++ ")"
  | Expression.If c conseq alt =>
    "if " ++ renderExpr c ++ " " ++ renderBlock conseq ++
      (match alt with
       | some b => " else " ++ renderBlock b
       | none => "")
  | Expression.Nothing => ""

/-- Modelled from the spec: render a block as its statements in order. -/
def renderBlock : BlockStatement → String
  | BlockStatement.mk _ stmts => renderStmtList stmts

/-- Modelled from the spec: render a statement; expression statements render
as their wrapped expression. -/
def renderStatement : Statement → String
  | Statement.Let _ name value => "let " ++ name.name ++ " = " ++ renderExpr value ++ ";"
  | Statement.Return _ expr => "return " ++ renderExpr expr ++ ";"
  | Statement.Expression _ expr => renderExpr expr

/-- Render a list of statements separated by newlines. -/
def renderStmtList : List Statement → String
  | [] => ""
  | [s] => renderStatement s
  | s :: rest => renderStatement s ++ "\n" ++ renderStmtList rest
end

/-- Modelled from the spec: render a program as its statements in order. -/
def renderProgram (p : Program) : String :=
  renderStmtList p.statements

/-- Convenience wrapper: run the full pipeline on a token stream with a fresh
parser and return the parsed program together with the collected diagnostics
(`none` when the fuel ran out). -/
def runParse (fuel : Nat) (tokens : List Token) :
    Option (Option Program × List ParserError × PState) :=
  parseProgram fuel (mkParser tokens) []

/-- The statements among an interleaved list of per-statement outcomes. -/
def sumLefts : List (Statement ⊕ ParserError) → List Statement
  | [] => []
  | Sum.inl s :: rest => s :: sumLefts rest
  | Sum.inr _ :: rest => sumLefts rest

/-- The errors among an interleaved list of per-statement outcomes. -/
def sumRights : List (Statement ⊕ ParserError) → List ParserError
  | [] => []
  | Sum.inl _ :: rest => sumRights rest
  | Sum.inr e :: rest => e :: sumRights rest

/-- One complete run of the statement loop of `parse_program` (src/parser.rs,
lines 147-153), recording its per-iteration outcomes: from state `st` with
the given fuel, the loop stops immediately at end-of-input with no outcomes,
and otherwise the head outcome is exactly what `parse_statement` returns on
`st` (with the loop continuing after the unconditional advance from the state
the attempt left behind).  `StmtOutcomes fuel st out stFin` therefore holds
exactly for the sequence of statement/error outcomes the loop encounters, in
encounter order. -/
inductive StmtOutcomes : Nat → PState → List (Statement ⊕ ParserError) → PState → Prop
  | done (f : Nat) (st : PState) (h : st.cur = Token.EOF) :
      StmtOutcomes (f + 1) st [] st
  | ok (f : Nat) (st st1 stFin : PState) (stmt : Statement)
      (out : List (Statement ⊕ ParserError))
      (hne : ¬st.cur = Token.EOF)
      (hps : parseStatement f st = some (Except.ok stmt, st1))
      (hrest : StmtOutcomes f (nextToken st1) out stFin) :
      StmtOutcomes (f + 1) st (Sum.inl stmt :: out) stFin
  | err (f : Nat) (st st1 stFin : PState) (e : ParserError)
      (out : List (Statement ⊕ ParserError))
      (hne : ¬st.cur = Token.EOF)
      (hps : parseStatement f st = some (Except.error e, st1))
      (hrest : StmtOutcomes f (nextToken st1) out stFin) :
      StmtOutcomes (f + 1) st (Sum.inr e :: out) stFin

/-- A fueled parse result never carrying an `UnhandledExpression` error. -/
def NoUEResult {α : Type} (r : Option (Except ParserError α × PState)) : Prop :=
  ∀ e st1, r = some (Except.error e, st1) → e.isUE = false

theorem noUE_none {α : Type} : NoUEResult (α := α) none := by
  intro e st1 h
  exact Option.noConfusion h

theorem noUE_ok {α : Type} (a : α) (st : PState) :
    NoUEResult (some (Except.ok a, st)) := by
  intro e st1 h
  simp at h

theorem noUE_err {α : Type} (e0 : ParserError) (st : PState) (h0 : e0.isUE = false) :
    NoUEResult (α := α) (some (Except.error e0, st)) := by
  intro e st1 h
  simp only [Option.some.injEq, Prod.mk.injEq, Except.error.injEq] at h
  exact h.1 ▸ h0

theorem pbind_noUE {α β : Type} {r : Option (Except ParserError α × PState)}
    {k : α → PState → Option (Except ParserError β × PState)}
    (h1 : NoUEResult r) (h2 : ∀ a st, NoUEResult (k a st)) :
    NoUEResult (pbind r k) := by
  cases r with
  | none => exact noUE_none
  | some p =>
    obtain ⟨x, st0⟩ := p
    cases x with
    | error e0 =>
      intro e st1 h
      simp only [pbind, Option.some.injEq, Prod.mk.injEq, Except.error.injEq] at h
      exact h.1 ▸ h1 e0 st0 rfl
    | ok a =>
      intro e st1 h
      exact h2 a st0 e st1 (by simpa [pbind] using h)

theorem epbind_noUE {α β : Type} {r : Except ParserError α × PState}
    {k : α → PState → Option (Except ParserError β × PState)}
    (h1 : ∀ e st1, r = (Except.error e, st1) → e.isUE = false)
    (h2 : ∀ a st, NoUEResult (k a st)) :
    NoUEResult (epbind r k) := by
  obtain ⟨x, st0⟩ := r
  cases x with
  | error e0 =>
    intro e st1 h
    simp only [epbind, Option.some.injEq, Prod.mk.injEq, Except.error.injEq] at h
    exact h.1 ▸ h1 e0 st0 rfl
  | ok a =>
    intro e st1 h
    exact h2 a st0 e st1 (by simpa [epbind] using h)

theorem expectPeek_err (st : PState) (t : Token) :
    ∀ e st1, expectPeek st t = (Except.error e, st1) → e.isUE = false := by
  intro e st1 h
  unfold expectPeek at h
  split at h
  · simp at h
  · simp only [Prod.mk.injEq, Except.error.injEq] at h
    exact h.1 ▸ rfl

theorem expectIdent_err (st : PState) :
    ∀ e st1, expectIdent st = (Except.error e, st1) → e.isUE = false := by
  intro e st1 h
  unfold expectIdent at h
  split at h
  · simp at h
  · simp only [Prod.mk.injEq, Except.error.injEq] at h
    exact h.1 ▸ rfl

theorem parseInt_noUE (s : String) (st : PState) :
    NoUEResult (some (parseIntExpression s, st)) := by
  unfold parseIntExpression
  split
  · exact noUE_ok _ _
  · exact noUE_err _ _ rfl

/-- No parsing operation of the source ever constructs the
`UnhandledExpression` diagnostic: simultaneous fuel induction over the whole
mutual recursion. -/
theorem noUE_all : ∀ fuel : Nat,
    (∀ st, NoUEResult (parseStatement fuel st)) ∧
    (∀ st, NoUEResult (parseLetStatement fuel st)) ∧
    (∀ st, NoUEResult (parseReturnStatement fuel st)) ∧
    (∀ st, NoUEResult (parseExpressionStatement fuel st)) ∧
    (∀ st, NoUEResult (parsePrefixExpression fuel st)) ∧
    (∀ left st, NoUEResult (parseInfixExpression fuel left st)) ∧
    (∀ st, NoUEResult (parseGroupedExpression fuel st)) ∧
    (∀ tok acc st, NoUEResult (blockLoop fuel tok acc st)) ∧
    (∀ st, NoUEResult (parseBlockStatement fuel st)) ∧
    (∀ st, NoUEResult (parseIfExpression fuel st)) ∧
    (∀ prec left st, NoUEResult (infixLoop fuel prec left st)) ∧
    (∀ prec st, NoUEResult (parseExpression fuel prec st)) := by
  intro fuel
  induction fuel with
  | zero =>
    refine ⟨?_, ?_, ?_, ?_, ?_, ?_, ?_, ?_, ?_, ?_, ?_, ?_⟩ <;>
      intros <;> exact noUE_none
  | succ f ih =>
    obtain ⟨ihStmt, ihLet, ihRet, ihExprStmt, ihPre, ihInf, ihGrp, ihBlkLoop,
      ihBlk, ihIf, ihLoop, ihExpr⟩ := ih
    refine ⟨?_, ?_, ?_, ?_, ?_, ?_, ?_, ?_, ?_, ?_, ?_, ?_⟩
    · -- parseStatement
      intro st
      obtain ⟨c, p, r⟩ := st
      cases c <;>
        first
          | exact ihLet _
          | exact ihRet _
          | exact ihExprStmt _
    · -- parseLetStatement
      intro st
      exact epbind_noUE (expectIdent_err st) fun name st1 =>
        epbind_noUE (expectPeek_err st1 Token.Assign) fun _ st2 =>
          pbind_noUE (ihExpr _ _) fun value st4 => noUE_ok _ _
    · -- parseReturnStatement
      intro st e st1 h
      simp only [parseReturnStatement] at h
      split at h
      · exact Option.noConfusion h
      · simp at h
    · -- parseExpressionStatement
      intro st
      exact pbind_noUE (ihExpr _ _) fun expr st1 => noUE_ok _ _
    · -- parsePrefixExpression
      intro st
      exact pbind_noUE (ihExpr _ _) fun right st2 => noUE_ok _ _
    · -- parseInfixExpression
      intro left st
      exact pbind_noUE (ihExpr _ _) fun right st2 => noUE_ok _ _
    · -- parseGroupedExpression
      intro st e st1 h
      simp only [parseGroupedExpression] at h
      split at h
      · exact Option.noConfusion h
      · rename_i expr st2 heq
        split at h
        · rename_i e0 st3 heq2
          simp only [Option.some.injEq, Prod.mk.injEq, Except.error.injEq] at h
          exact h.1 ▸ expectPeek_err st2 Token.RParen e0 st3 heq2
        · simp only [Option.some.injEq, Prod.mk.injEq] at h
          exact ihExpr Precedence.Lowest (nextToken st) e st2 (h.1 ▸ heq)
    · -- blockLoop
      intro tok acc st
      simp only [blockLoop]
      split
      · exact pbind_noUE (ihStmt _) fun stmt st1 => ihBlkLoop _ _ _
      · exact noUE_ok _ _
    · -- parseBlockStatement
      intro st
      exact ihBlkLoop _ _ _
    · -- parseIfExpression
      intro st
      refine epbind_noUE (expectPeek_err st Token.LParen) fun _ st1 =>
        pbind_noUE (ihExpr _ _) fun condition st2 =>
          epbind_noUE (expectPeek_err st2 Token.LBrace) fun _ st3 =>
            pbind_noUE (ihBlk _) fun consequence st4 => ?_
      obtain ⟨c4, p4, r4⟩ := st4
      cases p4 <;>
        first
          | exact noUE_ok _ _
          | exact epbind_noUE (expectPeek_err _ Token.LBrace) fun _ st6 =>
              pbind_noUE (ihBlk _) fun alt st7 => noUE_ok _ _
    · -- infixLoop
      intro prec left st
      simp only [infixLoop]
      split
      · split <;>
          first
            | exact pbind_noUE (ihInf _ _) fun left2 st1 => ihLoop _ _ _
            | exact noUE_ok _ _
      · exact noUE_ok _ _
    · -- parseExpression
      intro prec st
      simp only [parseExpression]
      refine pbind_noUE ?_ fun left st1 => ihLoop _ _ _
      obtain ⟨c, p, r⟩ := st
      cases c <;>
        first
          | exact noUE_ok _ _
          | exact parseInt_noUE _ _
          | exact ihPre _
          | exact ihGrp _
          | exact ihIf _
          | exact noUE_err _ _ rfl

/-- The outcome trace of the statement loop is unique: `parse_statement` is
a function, so a run from a given state with given fuel has exactly one
outcome sequence and one final state. -/
theorem stmtOutcomes_det {fuel : Nat} {st : PState}
    {out1 : List (Statement ⊕ ParserError)} {st1 : PState}
    (h1 : StmtOutcomes fuel st out1 st1) :
    ∀ (out2 : List (Statement ⊕ ParserError)) (st2 : PState),
      StmtOutcomes fuel st out2 st2 → out1 = out2 ∧ st1 = st2 := by
  induction h1 with
  | done f st hEof =>
    intro out2 st2 h2
    cases h2
    case done => exact ⟨rfl, rfl⟩
    case ok =>
      rename_i hneb hpsb hrestb
      exact absurd hEof hneb
    case err =>
      rename_i hneb hpsb hrestb
      exact absurd hEof hneb
  | ok f st st1 stFin stmt out hne hps hrest ih =>
    intro out2 st2 h2
    cases h2
    case done =>
      rename_i hEof
      exact absurd hEof hne
    case ok =>
      rename_i hneb hpsb hrestb
      rw [hps] at hpsb
      simp only [Option.some.injEq, Prod.mk.injEq, Except.ok.injEq] at hpsb
      obtain ⟨rfl, rfl⟩ := hpsb
      obtain ⟨ho, hs⟩ := ih _ st2 hrestb
      exact ⟨by rw [ho], hs⟩
    case err =>
      rename_i hneb hpsb hrestb
      rw [hps] at hpsb
      simp at hpsb
  | err f st st1 stFin e out hne hps hrest ih =>
    intro out2 st2 h2
    cases h2
    case done =>
      rename_i hEof
      exact absurd hEof hne
    case ok =>
      rename_i hneb hpsb hrestb
      rw [hps] at hpsb
      simp at hpsb
    case err =>
      rename_i hneb hpsb hrestb
      rw [hps] at hpsb
      simp only [Option.some.injEq, Prod.mk.injEq, Except.error.injEq] at hpsb
      obtain ⟨rfl, rfl⟩ := hpsb
      obtain ⟨ho, hs⟩ := ih _ st2 hrestb
      exact ⟨by rw [ho], hs⟩

/-- Whenever the program loop completes, it yields `some` program; its run is
described by an outcome trace `out` of the actual `parse_statement` calls,
and the program gains exactly the successful statements of that trace, in
order, while the diagnostics gain exactly its errors, in order. -/
theorem programLoop_trace : ∀ (fuel : Nat) (acc : List Statement)
    (errs : List ParserError) (st : PState)
    (res : Option Program × List ParserError × PState),
    programLoop fuel acc errs st = some res →
    ∃ out : List (Statement ⊕ ParserError),
      StmtOutcomes fuel st out res.2.2 ∧
      res.1 = some ⟨acc ++ sumLefts out⟩ ∧ res.2.1 = errs ++ sumRights out := by
  intro fuel
  induction fuel with
  | zero => intro acc errs st res h; exact Option.noConfusion h
  | succ f ih =>
    intro acc errs st res h
    simp only [programLoop] at h
    split at h
    · rename_i hEof
      rw [Option.some_inj] at h
      subst h
      exact ⟨[], StmtOutcomes.done f st hEof, by simp [sumLefts],
        by simp [sumRights]⟩
    · rename_i hne
      rcases hps : parseStatement f st with _ | ⟨x, st1⟩
      · rw [hps] at h
        exact Option.noConfusion h
      · cases x with
        | ok stmt =>
          rw [hps] at h
          obtain ⟨out, hrel, h1, h2⟩ := ih _ _ _ _ h
          exact ⟨Sum.inl stmt :: out,
            StmtOutcomes.ok f st st1 res.2.2 stmt out hne hps hrel,
            by simp [sumLefts, h1], by simp [sumRights, h2]⟩
        | error e0 =>
          rw [hps] at h
          obtain ⟨out, hrel, h1, h2⟩ := ih _ _ _ _ h
          exact ⟨Sum.inr e0 :: out,
            StmtOutcomes.err f st st1 res.2.2 e0 out hne hps hrel,
            by simp [sumLefts, h1], by simp [sumRights, h2]⟩

/-- Errors accumulated by the program loop are never `UnhandledExpression`,
provided the incoming diagnostics are not either. -/
theorem programLoop_noUE : ∀ (fuel : Nat) (acc : List Statement)
    (errs : List ParserError) (st : PState)
    (res : Option Program × List ParserError × PState),
    programLoop fuel acc errs st = some res →
    (∀ e ∈ errs, e.isUE = false) → ∀ e ∈ res.2.1, e.isUE = false := by
  intro fuel
  induction fuel with
  | zero => intro acc errs st res h; exact Option.noConfusion h
  | succ f ih =>
    intro acc errs st res h hin
    simp only [programLoop] at h
    split at h
    · rw [Option.some_inj] at h
      subst h
      exact hin
    · rcases hps : parseStatement f st with _ | ⟨x, st1⟩
      · rw [hps] at h
        exact Option.noConfusion h
      · cases x with
        | ok stmt =>
          rw [hps] at h
          exact ih _ _ _ _ h hin
        | error e0 =>
          rw [hps] at h
          refine ih _ _ _ _ h ?_
          intro e he
          rcases List.mem_append.mp he with hl | hr
          · exact hin e hl
          · rcases List.mem_singleton.mp hr with rfl
            exact (noUE_all f).1 st _ st1 hps

/-- The skip loop of `parse_return_statement` never terminates when no
semicolon remains in the lookahead window or the unread stream: every step
preserves that invariant, so every fuel bound is exhausted. -/
theorem skip_none_of_no_semi : ∀ (fuel : Nat) (st : PState),
    Token.Semicolon ∉ st.cur :: st.peek :: st.rest →
    skipToSemicolon fuel st = none := by
  intro fuel
  induction fuel with
  | zero => intro st h; rfl
  | succ f ih =>
    intro st h
    obtain ⟨c, p, r⟩ := st
    simp only [List.mem_cons, not_or] at h
    obtain ⟨hc, hp, hr⟩ := h
    have hcond : curTokenIs ⟨c, p, r⟩ Token.Semicolon = false := by
      cases c <;> simp_all [curTokenIs, tokenShapeEq]
    simp only [skipToSemicolon, hcond, Bool.false_eq_true, if_false]
    apply ih
    cases r with
    | nil =>
      simp only [nextToken, pull, List.mem_cons, List.not_mem_nil, or_false, not_or]
      exact ⟨hp, by decide⟩
    | cons t ts =>
      simp only [List.mem_cons, not_or] at hr
      simp only [nextToken, pull, List.mem_cons, not_or]
      exact ⟨hp, hr⟩

/-- The skip loop of `parse_return_statement` terminates as soon as a
semicolon occurs at position `k` of the lookahead window followed by the
unread stream, with fuel exceeding `k`. -/
theorem skip_some_of_semi_at : ∀ (k : Nat) (fuel : Nat) (st : PState),
    (st.cur :: st.peek :: st.rest)[k]? = some Token.Semicolon →
    k < fuel → (skipToSemicolon fuel st).isSome = true := by
  intro k
  induction k with
  | zero =>
    intro fuel st hsemi hlt
    cases fuel with
    | zero => omega
    | succ f =>
      obtain ⟨c, p, r⟩ := st
      simp only [List.getElem?_cons_zero, Option.some.injEq] at hsemi
      subst hsemi
      simp [skipToSemicolon, curTokenIs, tokenShapeEq]
  | succ k ih =>
    intro fuel st hsemi hlt
    cases fuel with
    | zero => omega
    | succ f =>
      simp only [skipToSemicolon]
      by_cases hcur : curTokenIs st Token.Semicolon
      · simp [hcur]
      · simp only [hcur, Bool.false_eq_true, if_false]
        refine ih f (nextToken st) ?_ (by omega)
        obtain ⟨c, p, r⟩ := st
        simp only [List.getElem?_cons_succ] at hsemi
        cases r with
        | nil =>
          cases k with
          | zero =>
            simp only [List.getElem?_cons_zero, Option.some.injEq] at hsemi
            subst hsemi
            simp [nextToken, pull]
          | succ k2 =>
            simp only [List.getElem?_cons_succ, List.getElem?_nil] at hsemi
            exact Option.noConfusion hsemi
        | cons t ts => simpa [nextToken, pull] using hsemi

/-- `parse_program` on the stream `return` (no semicolon, then the repeated
end-of-input tokens) exhausts every fuel bound: the skip loop of the return
statement spins on the end-of-input state forever. -/
theorem runParse_return_none : ∀ fuel : Nat, runParse fuel [Token.Return] = none := by
  intro fuel
  match fuel with
  | 0 => rfl
  | 1 => rfl
  | 2 => rfl
  | 3 => rfl
  | (f + 4) =>
    have hskip : skipToSemicolon f ⟨Token.EOF, Token.EOF, []⟩ = none :=
      skip_none_of_no_semi f _ (by decide)
    show parseProgram (f + 4) (mkParser [Token.Return]) [] = none
    have hmk : mkParser [Token.Return] = ⟨Token.Return, Token.EOF, []⟩ := rfl
    rw [hmk]
    show programLoop (f + 3) [] [] ⟨Token.Return, Token.EOF, []⟩ = none
    simp only [programLoop, parseStatement, parseReturnStatement, nextToken, pull, hskip]
    rfl

/-- C1: the Pratt expression parser produces precedence-correct,
left-associative trees.  Parsing the token streams of `a + b * c`, `-a + b`
and `a + b + c` yields programs whose canonical fully parenthesized
renderings are `(a + (b * c))`, `((-a) + b)` and `((a + b) + c)`
respectively, with no diagnostics. -/
theorem claim1_pratt_left_assoc_render :
    (runParse 60 [Token.Ident "a", Token.Plus, Token.Ident "b", Token.Asterisk,
        Token.Ident "c"]).map (fun r => (r.1.map renderProgram, r.2.1)) =
      some (some "(a + (b * c))", []) ∧
    (runParse 60 [Token.Minus, Token.Ident "a", Token.Plus,
        Token.Ident "b"]).map (fun r => (r.1.map renderProgram, r.2.1)) =
      some (some "((-a) + b)", []) ∧
    (runParse 60 [Token.Ident "a", Token.Plus, Token.Ident "b", Token.Plus,
        Token.Ident "c"]).map (fun r => (r.1.map renderProgram, r.2.1)) =
      some (some "((a + b) + c)", []) :=
  ⟨rfl, rfl, rfl⟩

/-- C2: whenever `parse_program` completes it returns `Some` program — never
the `None` case of its `Option` return type.  Moreover the unique outcome
trace of the statement loop's actual `parse_statement` calls (unique by the
determinism conjunct) decomposes the result: the program's statements are
exactly the trace's successful statements, in order, and the diagnostics
gain exactly the trace's errors — one per failed, omitted statement — in
encounter order. -/
theorem claim2_program_some_and_errors_in_order (fuel : Nat) (st : PState)
    (errs : List ParserError)
    (res : Option Program × List ParserError × PState)
    (h : parseProgram fuel st errs = some res) :
    ∃ out : List (Statement ⊕ ParserError),
      StmtOutcomes (fuel - 1) st out res.2.2 ∧
      (∀ (out2 : List (Statement ⊕ ParserError)) (stF2 : PState),
        StmtOutcomes (fuel - 1) st out2 stF2 →
        out2 = out ∧ stF2 = res.2.2) ∧
      res.1 = some ⟨sumLefts out⟩ ∧ res.2.1 = errs ++ sumRights out := by
  cases fuel with
  | zero => exact Option.noConfusion h
  | succ f =>
    obtain ⟨out, hrel, h1, h2⟩ := programLoop_trace f [] errs st res h
    refine ⟨out, by simpa using hrel, ?_, by simpa using h1, h2⟩
    intro out2 stF2 h2b
    obtain ⟨ho, hs⟩ := stmtOutcomes_det hrel out2 stF2 (by simpa using h2b)
    exact ⟨ho.symm, hs.symm⟩

/-- Witness for C2 at the stream of `let x 5;`: the failed let statement is
omitted and contributes its `ExpectedToken` error, and the recovered
expression statement `5` is kept. -/
theorem claim2_witness :
    ∃ out : List (Statement ⊕ ParserError),
      StmtOutcomes 19 (mkParser [Token.Let, Token.Ident "x", Token.Int "5",
        Token.Semicolon]) out ⟨Token.EOF, Token.EOF, []⟩ ∧
      (∀ (out2 : List (Statement ⊕ ParserError)) (stF2 : PState),
        StmtOutcomes 19 (mkParser [Token.Let, Token.Ident "x", Token.Int "5",
          Token.Semicolon]) out2 stF2 →
        out2 = out ∧ stF2 = ⟨Token.EOF, Token.EOF, []⟩) ∧
      (some (⟨[Statement.Expression (Token.Int "5")
          (Expression.IntegerLiteral 5)]⟩ : Program) : Option Program) =
        some ⟨sumLefts out⟩ ∧
      [ParserError.ExpectedToken Token.Assign (Token.Int "5")] =
        [] ++ sumRights out :=
  claim2_program_some_and_errors_in_order 20
    (mkParser [Token.Let, Token.Ident "x", Token.Int "5", Token.Semicolon]) []
    (some ⟨[Statement.Expression (Token.Int "5")
        (Expression.IntegerLiteral 5)]⟩,
      [ParserError.ExpectedToken Token.Assign (Token.Int "5")],
      ⟨Token.EOF, Token.EOF, []⟩) rfl

/-- C3, corrected, counterexample: on the one-token stream `return` (no
semicolon before end-of-input) `parse_program` does not finish within fuel 50
— far beyond any bound proportional to the single token — because the skip
loop's advance is the identity on the exhausted-stream state while the loop
condition keeps holding (end-of-input is not treated as a terminator). -/
theorem claim3_counterexample :
    runParse 50 [Token.Return] = none ∧
    nextToken ⟨Token.EOF, Token.EOF, []⟩ = ⟨Token.EOF, Token.EOF, []⟩ ∧
    curTokenIs ⟨Token.EOF, Token.EOF, []⟩ Token.Semicolon = false :=
  ⟨rfl, rfl, rfl⟩

/-- C3, amended: the return-statement skip loop has no end-of-input guard.
On the stream `return` (no semicolon) `parse_program` exhausts every fuel
bound; in general the skip loop exhausts every fuel bound when no semicolon
remains in the lookahead window or the unread stream, and terminates within
any fuel bound exceeding the position of the first remaining semicolon. -/
theorem claim3_skip_no_eof_guard :
    (∀ fuel : Nat, runParse fuel [Token.Return] = none) ∧
    (∀ (fuel : Nat) (st : PState),
      Token.Semicolon ∉ st.cur :: st.peek :: st.rest →
      skipToSemicolon fuel st = none) ∧
    (∀ (k fuel : Nat) (st : PState),
      (st.cur :: st.peek :: st.rest)[k]? = some Token.Semicolon → k < fuel →
      (skipToSemicolon fuel st).isSome = true) :=
  ⟨runParse_return_none, skip_none_of_no_semi,
    fun k fuel st => skip_some_of_semi_at k fuel st⟩

/-- Witness for C3's amended theorem: the skip loop starves on the
end-of-input fixpoint state and succeeds immediately on a semicolon. -/
theorem claim3_witness :
    skipToSemicolon 5 ⟨Token.EOF, Token.EOF, []⟩ = none ∧
    (skipToSemicolon 1 ⟨Token.Semicolon, Token.EOF, []⟩).isSome = true :=
  ⟨claim3_skip_no_eof_guard.2.1 5 ⟨Token.EOF, Token.EOF, []⟩ (by decide),
    claim3_skip_no_eof_guard.2.2 0 1 ⟨Token.Semicolon, Token.EOF, []⟩ rfl
      (by decide)⟩

/-- C4: parsing the token stream of `let x 5; let = 10; let 838383;` yields
exactly four diagnostics, in order: `ExpectedToken` expecting `=` while
seeing integer-literal 5, `ExpectedIdent` seeing `=`, `UnhandledPrefix` on
`=`, and `ExpectedIdent` seeing integer-literal 838383. -/
theorem claim4_let_error_diagnostics :
    (runParse 60 [Token.Let, Token.Ident "x", Token.Int "5", Token.Semicolon,
        Token.Let, Token.Assign, Token.Int "10", Token.Semicolon,
        Token.Let, Token.Int "838383", Token.Semicolon]).map (fun r => r.2.1) =
      some [ParserError.ExpectedToken Token.Assign (Token.Int "5"),
        ParserError.ExpectedIdent Token.Assign,
        ParserError.UnhandledPrefixTok Token.Assign,
        ParserError.ExpectedIdent (Token.Int "838383")] :=
  rfl

/-- C5: whenever `parse_return_statement` completes it returns `Ok` — never
an error — and the statement carries the token current at entry (the
`return` token) with the sentinel `Nothing` expression as its value. -/
theorem claim5_return_nothing_sentinel (fuel : Nat) (st : PState)
    (r : Except ParserError Statement × PState)
    (h : parseReturnStatement fuel st = some r) :
    r.1 = Except.ok (Statement.Return st.cur Expression.Nothing) := by
  cases fuel with
  | zero => exact Option.noConfusion h
  | succ f =>
    simp only [parseReturnStatement] at h
    split at h
    · exact Option.noConfusion h
    · rw [Option.some_inj] at h
      subst h
      rfl

/-- Witness for C5 at the stream `return ;`. -/
theorem claim5_witness :
    ((Except.ok (Statement.Return Token.Return Expression.Nothing),
      (⟨Token.Semicolon, Token.EOF, []⟩ : PState)) :
        Except ParserError Statement × PState).1 =
      Except.ok (Statement.Return (mkParser [Token.Return, Token.Semicolon]).cur
        Expression.Nothing) :=
  claim5_return_nothing_sentinel 5 (mkParser [Token.Return, Token.Semicolon]) _ rfl

/-- C6: `expect_peek` advances and succeeds exactly when the next token
matches the expected tag — payload is ignored for identifier and integer
tags — and otherwise fails with `ExpectedToken` carrying the expected token
and the token actually seen, leaving the state unchanged; `expect_ident`
advances and returns the `Identifier` with the extracted name when the next
token is an identifier, and otherwise fails with `ExpectedIdent` carrying
the offending token, also without advancing. -/
theorem claim6_expect_operations (st : PState) (expected : Token) :
    (peekTokenIs st expected = true →
      expectPeek st expected = (Except.ok (), nextToken st)) ∧
    (peekTokenIs st expected = false →
      expectPeek st expected =
        (Except.error (ParserError.ExpectedToken expected st.peek), st)) ∧
    (∀ a b : String, tokenShapeEq (Token.Ident a) (Token.Ident b) = true ∧
      tokenShapeEq (Token.Int a) (Token.Int b) = true) ∧
    (∀ name : String, st.peek = Token.Ident name →
      expectIdent st = (Except.ok ⟨name⟩, nextToken st)) ∧
    ((∀ name : String, st.peek ≠ Token.Ident name) →
      expectIdent st = (Except.error (ParserError.ExpectedIdent st.peek), st)) := by
  refine ⟨?_, ?_, ?_, ?_, ?_⟩
  · intro hp
    simp [expectPeek, hp]
  · intro hp
    simp [expectPeek, hp]
  · intro a b
    exact ⟨rfl, rfl⟩
  · intro name hp
    simp [expectIdent, hp]
  · intro hp
    unfold expectIdent
    split
    · rename_i name heq
      exact absurd heq (hp name)
    · rfl

/-- Witness for C6: a failing `expect_peek` and a succeeding `expect_ident`
at concrete states. -/
theorem claim6_witness :
    expectPeek ⟨Token.EOF, Token.Semicolon, []⟩ Token.Assign =
      (Except.error (ParserError.ExpectedToken Token.Assign Token.Semicolon),
        ⟨Token.EOF, Token.Semicolon, []⟩) ∧
    expectIdent ⟨Token.EOF, Token.Ident "x", []⟩ =
      (Except.ok ⟨"x"⟩, nextToken ⟨Token.EOF, Token.Ident "x", []⟩) :=
  ⟨(claim6_expect_operations ⟨Token.EOF, Token.Semicolon, []⟩ Token.Assign).2.1
      (by decide),
    (claim6_expect_operations ⟨Token.EOF, Token.Ident "x", []⟩ Token.Assign).2.2.2.1
      "x" rfl⟩

/-- C7: in `parse_grouped_expression`, when the closing-parenthesis check
fails the reported error is the `ExpectedToken` error for `)` — regardless
of whether the inner expression parse failed too — and when both succeed the
returned value is the inner expression itself, with no wrapper node. -/
theorem claim7_grouped_rparen_priority (f : Nat) (st st2 : PState)
    (r : Except ParserError Expression)
    (h : parseExpression f Precedence.Lowest (nextToken st) = some (r, st2)) :
    (peekTokenIs st2 Token.RParen = false →
      parseGroupedExpression (f + 1) st =
        some (Except.error (ParserError.ExpectedToken Token.RParen st2.peek), st2)) ∧
    (∀ e : Expression, r = Except.ok e → peekTokenIs st2 Token.RParen = true →
      parseGroupedExpression (f + 1) st = some (Except.ok e, nextToken st2)) := by
  constructor
  · intro hb
    simp [parseGroupedExpression, h, expectPeek, hb]
  · intro e hre hb
    subst hre
    simp [parseGroupedExpression, h, expectPeek, hb]

/-- Witness for C7: the stream `( =` (inner parse fails, `)` missing)
reports the `)` error, and the stream `( 5 )` returns the bare inner
literal. -/
theorem claim7_witness :
    parseGroupedExpression 6 (mkParser [Token.LParen, Token.Assign]) =
      some (Except.error (ParserError.ExpectedToken Token.RParen Token.EOF),
        ⟨Token.Assign, Token.EOF, []⟩) ∧
    parseGroupedExpression 6 (mkParser [Token.LParen, Token.Int "5", Token.RParen]) =
      some (Except.ok (Expression.IntegerLiteral 5),
        nextToken ⟨Token.Int "5", Token.RParen, []⟩) :=
  ⟨(claim7_grouped_rparen_priority 5 (mkParser [Token.LParen, Token.Assign])
      ⟨Token.Assign, Token.EOF, []⟩
      (Except.error (ParserError.UnhandledPrefixTok Token.Assign)) rfl).1 rfl,
    (claim7_grouped_rparen_priority 5
      (mkParser [Token.LParen, Token.Int "5", Token.RParen])
      ⟨Token.Int "5", Token.RParen, []⟩
      (Except.ok (Expression.IntegerLiteral 5)) rfl).2
      (Expression.IntegerLiteral 5) rfl rfl⟩

/-- C8, corrected, counterexample: for the stream of `a + b;` the produced
expression statement carries the identifier token `b` — the token current
when the expression parse finished — not the originating token `a` asserted
by the claim. -/
theorem claim8_counterexample :
    parseStatement 20 (mkParser [Token.Ident "a", Token.Plus, Token.Ident "b",
        Token.Semicolon]) =
      some (Except.ok (Statement.Expression (Token.Ident "b")
        (Expression.InfixExpr Token.Plus (Expression.Identifier ⟨"a"⟩)
          (Expression.Identifier ⟨"b"⟩))),
        ⟨Token.Semicolon, Token.EOF, []⟩) ∧
    Token.Ident "b" ≠ Token.Ident "a" :=
  ⟨rfl, by decide⟩

/-- C8, amended: every expression statement carries the parser's current
token at the moment the wrapped expression's parse finished — the last token
of the expression — which coincides with the originating token only for
single-token expressions. -/
theorem claim8_stmt_token_is_last (f : Nat) (st st1 : PState) (e : Expression)
    (h : parseExpression f Precedence.Lowest st = some (Except.ok e, st1)) :
    parseExpressionStatement (f + 1) st =
      some (Except.ok (Statement.Expression st1.cur e),
        if peekTokenIs st1 Token.Semicolon then nextToken st1 else st1) := by
  simp [parseExpressionStatement, pbind, h]

/-- Witness for C8's amended theorem at the stream of `a + b;`. -/
theorem claim8_witness :
    parseExpressionStatement 20 (mkParser [Token.Ident "a", Token.Plus,
        Token.Ident "b", Token.Semicolon]) =
      some (Except.ok (Statement.Expression
        (⟨Token.Ident "b", Token.Semicolon, []⟩ : PState).cur
        (Expression.InfixExpr Token.Plus (Expression.Identifier ⟨"a"⟩)
          (Expression.Identifier ⟨"b"⟩))),
        if peekTokenIs (⟨Token.Ident "b", Token.Semicolon, []⟩ : PState)
            Token.Semicolon then
          nextToken ⟨Token.Ident "b", Token.Semicolon, []⟩
        else (⟨Token.Ident "b", Token.Semicolon, []⟩ : PState)) :=
  claim8_stmt_token_is_last 19
    (mkParser [Token.Ident "a", Token.Plus, Token.Ident "b", Token.Semicolon])
    ⟨Token.Ident "b", Token.Semicolon, []⟩
    (Expression.InfixExpr Token.Plus (Expression.Identifier ⟨"a"⟩)
      (Expression.Identifier ⟨"b"⟩)) rfl

/-- C9: no parsing operation ever produces an `UnhandledExpression`
diagnostic — after `parse_program` completes on a fresh parser, the
collected diagnostics contain no element of that variant. -/
theorem claim9_no_unhandled_expr_diag (fuel : Nat) (st : PState)
    (res : Option Program × List ParserError × PState)
    (h : parseProgram fuel st [] = some res) :
    ∀ e ∈ res.2.1, e.isUE = false := by
  cases fuel with
  | zero => exact Option.noConfusion h
  | succ f => exact programLoop_noUE f [] [] st res h (by simp)

/-- Witness for C9 at the stream `=`, whose parse fails with an
`UnhandledPrefix` (not `UnhandledExpression`) diagnostic. -/
theorem claim9_witness :
    (ParserError.UnhandledPrefixTok Token.Assign).isUE = false :=
  claim9_no_unhandled_expr_diag 10 (mkParser [Token.Assign])
    (some ⟨[]⟩, [ParserError.UnhandledPrefixTok Token.Assign],
      ⟨Token.EOF, Token.EOF, []⟩) rfl
    (ParserError.UnhandledPrefixTok Token.Assign) (by decide)

/-- C10: an unterminated block is not an error — the block loop returns `Ok`
with the statements accumulated so far as soon as the current token is
end-of-input, and the input `if (c) { x` with no closing brace parses into a
complete `If` expression statement with no diagnostics. -/
theorem claim10_unterminated_block_ok :
    (∀ (f : Nat) (tok : Token) (acc : List Statement) (st : PState),
      curTokenIs st Token.EOF = true →
      blockLoop (f + 1) tok acc st =
        some (Except.ok (BlockStatement.mk tok acc), st)) ∧
    runParse 60 [Token.If, Token.LParen, Token.Ident "c", Token.RParen,
        Token.LBrace, Token.Ident "x"] =
      some (some ⟨[Statement.Expression Token.EOF
        (Expression.If (Expression.Identifier ⟨"c"⟩)
          (BlockStatement.mk Token.LBrace
            [Statement.Expression (Token.Ident "x")
              (Expression.Identifier ⟨"x"⟩)])
          none)]⟩, [], ⟨Token.EOF, Token.EOF, []⟩) := by
  constructor
  · intro f tok acc st hcur
    simp [blockLoop, hcur]
  · rfl

/-- Witness for C10's end-of-input case of the block loop. -/
theorem claim10_witness :
    blockLoop 1 Token.LBrace [] ⟨Token.EOF, Token.EOF, []⟩ =
      some (Except.ok (BlockStatement.mk Token.LBrace []),
        ⟨Token.EOF, Token.EOF, []⟩) :=
  claim10_unterminated_block_ok.1 0 Token.LBrace [] ⟨Token.EOF, Token.EOF, []⟩
    (by decide)

end MonkeyRs

